import Mathlib

/-!
# plexdrive: chunk cache and download manager

A shallow embedding of `chunk/cache_memory.go`, `chunk/cache_disk.go`,
`chunk/storage.go` and `download.go`, followed by the properties established
about them.

Conventions of the embedding:

* a Go `[]byte` is `Option (List UInt8)`: `none` is the `nil` slice, `some l`
  a non-nil slice with contents `l`;
* a Go `error` is `Option String`: `none` is `nil`;
* a Go `map[string][]byte` is an association list with pairwise distinct keys;
* `int64` arithmetic is arithmetic on `Int` followed by `wrapInt64`.
-/

namespace Plexdrive

/-! ## Go values -/

/-- A Go byte slice: `none` is `nil`. -/
abbrev Bytes := Option (List UInt8)

/-- A Go `error` value: `none` is `nil`. -/
abbrev GoError := Option String

/-- Go `len(b)` of a byte slice. -/
def Bytes.len : Bytes → Nat
  | none => 0
  | some l => l.length

/-- Go `b[s:e]` for a slice whose capacity equals its length: `none` stands for
the run-time panic "slice bounds out of range". Slicing `nil` with `[0:0]`
gives `nil`. -/
def Bytes.slice (b : Bytes) (s e : Int) : Option Bytes :=
  if 0 ≤ s ∧ s ≤ e ∧ e ≤ (Bytes.len b : Int) then
    match b with
    | none => some none
    | some l => some (some ((l.drop s.toNat).take (e.toNat - s.toNat)))
  else none

/-- Reduction of a mathematical integer to the `int64` it is stored as. -/
def wrapInt64 (x : Int) : Int := (x + 2 ^ 63) % 2 ^ 64 - 2 ^ 63

/-- Go `uint64(x)` of an `int64` value. -/
def toUint64 (x : Int) : Nat := (x % 2 ^ 64).toNat

/-! ## Go maps as association lists -/

/-- Go `m[k]` with the comma-ok form. -/
def mapGet {α : Type} (m : List (String × α)) (k : String) : Option α :=
  match m with
  | [] => none
  | (k', v) :: rest => if k' = k then some v else mapGet rest k

/-- Go `delete(m, k)`. -/
def mapDelete {α : Type} (m : List (String × α)) (k : String) : List (String × α) :=
  m.filter (fun p => decide (p.1 ≠ k))

/-- Go `m[k] = v`. -/
def mapSet {α : Type} (m : List (String × α)) (k : String) (v : α) : List (String × α) :=
  (k, v) :: mapDelete m k

/-! ## chunk/cache_memory.go -/

/-- The in-memory cache: `chunks map[string][]byte` (the lock is not modelled). -/
structure MemoryCache where
  chunks : List (String × Bytes)
deriving Repr, DecidableEq

/-- `NewMemoryCache`. -/
def NewMemoryCache : MemoryCache := ⟨[]⟩

/-- `MemoryCache.Clear`: "not implemented as it is only called on startup". -/
def MemoryCache.Clear (c : MemoryCache) : GoError × MemoryCache := (none, c)

/-- `MemoryCache.Load`. -/
def MemoryCache.Load (c : MemoryCache) (id : String) : Bytes :=
  match mapGet c.chunks id with
  | some chunk => chunk
  | none => none

/-- `MemoryCache.Store`. -/
def MemoryCache.Store (c : MemoryCache) (id : String) (bytes : Bytes) : GoError × MemoryCache :=
  (none, ⟨mapSet c.chunks id bytes⟩)

/-- `MemoryCache.Remove`. -/
def MemoryCache.Remove (c : MemoryCache) (id : String) : GoError × MemoryCache :=
  (none, ⟨mapDelete c.chunks id⟩)

/-! ## chunk/cache_disk.go

The file system is a directory that exists or not together with a map from
file name to contents. Opening or removing a missing file and creating a file
in a missing directory fail as the state of the file system dictates. The two
calls of `Clear` and `NewDiskCache` that work on the whole directory
(`os.RemoveAll`, `os.MkdirAll`) fail when the environment says so: `DiskFaults`
gives the error each of them returns and the files a failed `os.RemoveAll`
leaves behind. The hash (`sha256` then hex) is a field of the cache, and the
cache directory is taken to be an absolute, clean path. -/

/-- The part of the file system a `DiskCache` works on. -/
structure FileSystem where
  dirExists : Bool
  files : List (String × List UInt8)
deriving Repr, DecidableEq

/-- What the environment does to the directory-wide calls: the error returned by
`os.RemoveAll` (`none` when it succeeds), the files still there when it fails,
and the error returned by `os.MkdirAll` (`none` when it succeeds). -/
structure DiskFaults where
  removeAllErr : GoError
  filesLeft : List (String × List UInt8)
  mkdirAllErr : GoError
deriving Repr, DecidableEq

/-- An environment in which `os.RemoveAll` and `os.MkdirAll` succeed. -/
def DiskFaults.healthy : DiskFaults := ⟨none, [], none⟩

/-- The on-disk cache: its directory, the hash naming the files, the file
system, and the faults of the environment. -/
structure DiskCache where
  cacheDir : String
  hash : String → String
  fs : FileSystem
  faults : DiskFaults

/-- `NewDiskCache`: `os.MkdirAll` on the cache directory; its error is returned
with a `nil` cache. -/
def NewDiskCache (cacheDir : String) (hash : String → String) (fs : FileSystem)
    (faults : DiskFaults) : Option DiskCache × GoError :=
  match faults.mkdirAllErr with
  | some err => (none, some err)
  | none => (some ⟨cacheDir, hash, { fs with dirExists := true }, faults⟩, none)

/-- `DiskCache.getFilename`: `path.Join(cacheDir, hex(sha256(id)))`. -/
def DiskCache.getFilename (c : DiskCache) (id : String) : String :=
  c.cacheDir ++ "/" ++ c.hash id

/-- `DiskCache.Clear`: `os.RemoveAll`, whose error is returned at once, then
`os.MkdirAll`, whose error is the result. -/
def DiskCache.Clear (c : DiskCache) : GoError × DiskCache :=
  match c.faults.removeAllErr with
  | some err => (some err, { c with fs := { c.fs with files := c.faults.filesLeft } })
  | none =>
    match c.faults.mkdirAllErr with
    | some err => (some err, { c with fs := ⟨false, []⟩ })
    | none => (none, { c with fs := ⟨true, []⟩ })

/-- `DiskCache.Load`: `nil` when the file cannot be opened or is empty. -/
def DiskCache.Load (c : DiskCache) (id : String) : Bytes :=
  let fn := c.getFilename id
  match (if c.fs.dirExists then mapGet c.fs.files fn else none) with
  | none => none
  | some data => if data.length = 0 then none else some data

/-- `DiskCache.Store`: `os.Create` then `Write`. -/
def DiskCache.Store (c : DiskCache) (id : String) (bytes : Bytes) : GoError × DiskCache :=
  let fn := c.getFilename id
  if c.fs.dirExists then
    (none, { c with fs := { c.fs with files := mapSet c.fs.files fn (bytes.getD []) } })
  else
    (some ("open " ++ fn ++ ": no such file or directory"), c)

/-- `DiskCache.Remove`: `os.Remove`, an error when the file does not exist. -/
def DiskCache.Remove (c : DiskCache) (id : String) : GoError × DiskCache :=
  let fn := c.getFilename id
  match (if c.fs.dirExists then mapGet c.fs.files fn else none) with
  | none => (some ("remove " ++ fn ++ ": no such file or directory"), c)
  | some _ => (none, { c with fs := { c.fs with files := mapDelete c.fs.files fn } })

/-! ## chunk/cache.go -/

/-- The `Cache` interface, as the sum of its two implementations. -/
inductive Cache where
  | memory (c : MemoryCache)
  | disk (c : DiskCache)

/-- `Cache.Clear`. -/
def Cache.Clear : Cache → GoError × Cache
  | .memory c => ((c.Clear).1, .memory (c.Clear).2)
  | .disk c => ((c.Clear).1, .disk (c.Clear).2)

/-- `Cache.Load`. -/
def Cache.Load : Cache → String → Bytes
  | .memory c, id => c.Load id
  | .disk c, id => c.Load id

/-- `Cache.Store`. -/
def Cache.Store : Cache → String → Bytes → GoError × Cache
  | .memory c, id, b => ((c.Store id b).1, .memory (c.Store id b).2)
  | .disk c, id, b => ((c.Store id b).1, .disk (c.Store id b).2)

/-- `Cache.Remove`. -/
def Cache.Remove : Cache → String → GoError × Cache
  | .memory c, id => ((c.Remove id).1, .memory (c.Remove id).2)
  | .disk c, id => ((c.Remove id).1, .disk (c.Remove id).2)

/-- The ids (memory) or file names (disk) under which the backend holds an entry. -/
def Cache.keys : Cache → List String
  | .memory c => c.chunks.map Prod.fst
  | .disk c => c.fs.files.map Prod.fst

/-! ## The eviction tracker (`Stack`) -/

/-- Modelled from the spec: the `Stack` type used by `Storage` (`NewStack`,
`Touch`, `Push`, `Pop`) is not among the sources. It is "a capacity-bounded
recency list": `items` holds the tracked ids, least recently used first. -/
structure Stack where
  maxSize : Int
  items : List String
deriving Repr, DecidableEq

/-- Modelled from the spec: `NewStack(maxSize)`, an empty tracker of that capacity. -/
def NewStack (maxSize : Int) : Stack := ⟨maxSize, []⟩

/-- Modelled from the spec: `Touch(id)`: "if id is tracked, move it to the
most-recently-used end; if untracked, no-op". -/
def Stack.Touch (s : Stack) (id : String) : Stack :=
  if id ∈ s.items then { s with items := s.items.filter (fun x => decide (x ≠ id)) ++ [id] } else s

/-- Modelled from the spec: `Push(id)`: "insert if absent, else move to the
most-recent end". -/
def Stack.Push (s : Stack) (id : String) : Stack :=
  { s with items := s.items.filter (fun x => decide (x ≠ id)) ++ [id] }

/-- Modelled from the spec: `Pop()`: "if the tracked count is at or above
capacity, remove and return the least-recently-used id; otherwise return
none". `Storage.Store` tests the result against the empty string, which is
therefore the value standing for none. -/
def Stack.Pop (s : Stack) : String × Stack :=
  if s.maxSize ≤ (s.items.length : Int) then
    match s.items with
    | [] => ("", s)
    | x :: rest => (x, { s with items := rest })
  else ("", s)

/-! ## chunk/storage.go -/

/-- The chunk storage: a backend and an eviction tracker. -/
structure Storage where
  ChunkSize : Int
  MaxChunks : Int
  cache : Cache
  stack : Stack

/-- `NewStorage`. -/
def NewStorage (chunkSize : Int) (maxChunks : Int) (cache : Cache) : Storage :=
  ⟨chunkSize, maxChunks, cache, NewStack maxChunks⟩

/-- `Storage.Clear`. -/
def Storage.Clear (s : Storage) : GoError × Storage :=
  ((s.cache.Clear).1, { s with cache := (s.cache.Clear).2 })

/-- `Storage.Load`: a hit touches the tracker. -/
def Storage.Load (s : Storage) (id : String) : Bytes × Storage :=
  match s.cache.Load id with
  | some chunk => (some chunk, { s with stack := s.stack.Touch id })
  | none => (none, s)

/-- `Storage.Store`. When `Pop` names an id to delete, the call made is
`s.cache.Remove(id)` with the incoming `id`; its error is only logged. -/
def Storage.Store (s : Storage) (id : String) (bytes : Bytes) : GoError × Storage :=
  let popped := s.stack.Pop
  let deleteID := popped.1
  let cache1 := if "" ≠ deleteID then (s.cache.Remove id).2 else s.cache
  let stored := cache1.Store id bytes
  match stored.1 with
  | some err => (some err, { s with cache := stored.2, stack := popped.2 })
  | none => (none, { s with cache := stored.2, stack := popped.2.Push id })

/-- A sequence of `Store` calls, errors ignored. -/
def Storage.storeAll (s : Storage) : List (String × Bytes) → Storage
  | [] => s
  | (id, b) :: rest => Storage.storeAll (s.Store id b).2 rest

/-- The number of distinct ids for which the backend still holds bytes: the
keys of the backend whose `Load` is not `nil`. -/
def Storage.heldCount (s : Storage) : Nat :=
  (s.cache.keys.dedup.filter (fun id => (s.cache.Load id).isSome)).length

/-! ## download.go: data -/

/-- The fields of `APIObject` that `download.go` reads. -/
structure APIObject where
  ObjectID : String
  Name : String
  Size : Nat
  DownloadURL : String
deriving Repr, DecidableEq

/-- A `downloadResponse`. -/
structure downloadResponse where
  content : Bytes
  err : GoError
deriving Repr, DecidableEq

/-- A `downloadRequest`; `response` names the response channel, `none` is the
`nil` channel of a read-ahead request. -/
structure downloadRequest where
  object : APIObject
  offset : Int
  size : Int
  response : Option Nat
deriving Repr, DecidableEq

/-- What a run does that can be observed from outside, in program order. -/
inductive Event where
  | sleep (seconds : Int)
  | sleepMillis (ms : Nat)
  | httpGet (url : String) (range : String)
  | storeChunk (object : APIObject) (offset : Int) (bytes : Bytes)
  | send (channel : Nat) (resp : downloadResponse)
deriving Repr, DecidableEq

/-- How a run of a procedure ends. `blocked` is a goroutine parked for ever on a
send that nobody receives; `exhausted` is the recursion budget of the model
running out, which says nothing about the program. -/
inductive Run (α : Type) where
  | done (a : α)
  | panicked (trace : List Event)
  | blocked (trace : List Event)
  | exhausted
deriving Repr, DecidableEq

/-- The outcome of `client.Do(req)` followed by reading the body: `body = none`
is a failed `ioutil.ReadAll`. -/
inductive HttpResult where
  | transportError
  | reply (status : Int) (body : Option (List UInt8))
deriving Repr, DecidableEq

/-- The HTTP client and the server behind it: which URLs `http.NewRequest`
accepts, and the answer to the `n`-th request issued (counted from 0). -/
structure HttpClient where
  validURL : String → Bool
  roundTrip : Nat → String → String → HttpResult

/-- The bytes of an ASCII string. -/
def asciiBytes (s : String) : List UInt8 := s.toList.map (fun c => UInt8.ofNat c.toNat)

/-- Go `strings.Contains(string(body), sub)`. -/
def bytesContain (body : List UInt8) (sub : String) : Bool :=
  body.tails.any (fun t => (asciiBytes sub).isPrefixOf t)

/-- The test of lines 203-206: the body names a rate limit. -/
def isRateLimitBody (body : List UInt8) : Bool :=
  bytesContain body "dailyLimitExceeded" ||
  bytesContain body "userRateLimitExceeded" ||
  bytesContain body "rateLimitExceeded" ||
  bytesContain body "backendError"

/-- The network as seen by one run: requests issued so far and the events so far. -/
structure Net where
  issued : Nat
  trace : List Event
deriving Repr, DecidableEq

/-! ## download.go: downloadFromAPI -/

/-- `downloadFromAPI`. The first argument bounds the depth of the recursive
retry. A zero chunk size makes `request.offset % chunkSize` panic. -/
def downloadFromAPI (client : HttpClient) (chunkSize : Int) :
    Nat → Int → downloadRequest → Bool → Net → Run ((Bytes × GoError) × Net)
  | 0, _, _, _, _ => .exhausted
  | fuel + 1, delay, request, highPrio, net =>
    let net1 : Net := if delay > 0 then { net with trace := net.trace ++ [.sleep delay] } else net
    if chunkSize = 0 then .panicked net1.trace
    else
      let fOffset := Int.tmod request.offset chunkSize
      let offsetStart := request.offset - fOffset
      let offsetEnd := wrapInt64 (offsetStart + chunkSize)
      if client.validURL request.object.DownloadURL = false then
        .done ((none, some ("Could not create request object " ++ request.object.ObjectID ++
          " (" ++ request.object.Name ++ ") from API")), net1)
      else
        let range := "bytes=" ++ toString offsetStart ++ "-" ++ toString offsetEnd
        let net2 : Net :=
          ⟨net1.issued + 1, net1.trace ++ [.httpGet request.object.DownloadURL range]⟩
        match client.roundTrip net1.issued request.object.DownloadURL range with
        | .transportError =>
          .done ((none, some ("Could not request object " ++ request.object.ObjectID ++
            " (" ++ request.object.Name ++ ") from API")), net2)
        | .reply status body =>
          if status ≠ 206 then
            if status ≠ 403 then
              .done ((none, some ("Wrong status code " ++ toString status)), net2)
            else if delay > 8 then
              .done ((none, some "Maximum throttle interval has been reached"), net2)
            else
              match body with
              | none => .done ((none, some "Could not read body of 403 error"), net2)
              | some bytes =>
                if isRateLimitBody bytes then
                  let delay1 := if 0 = delay then 1 else wrapInt64 (delay * 2)
                  downloadFromAPI client chunkSize fuel delay1 request highPrio net2
                else
                  .done ((none, some ("Could not read object " ++ request.object.ObjectID ++
                    " (" ++ request.object.Name ++ ") / StatusCode: " ++ toString status)), net2)
          else
            match body with
            | none =>
              .done ((none, some ("Could not read objects " ++ request.object.ObjectID ++
                " (" ++ request.object.Name ++ ") API response")), net2)
            | some bytes => .done ((some bytes, none), net2)

/-! ## download.go: the conversions of lines 146-147 -/

/-- The value of Go `float64(x)` for an integer `x`: `x` itself below `2^53`,
otherwise `x` rounded to 53 significant bits, ties to even. The value is always
an integer, so it is kept as one. -/
def float64 (x : Int) : Int :=
  let a := x.natAbs
  if a < 2 ^ 53 then x
  else
    let e := Nat.log2 a - 52
    let q := a / 2 ^ e
    let r := a % 2 ^ e
    let half := 2 ^ (e - 1)
    let q1 := if half < r ∨ (r = half ∧ q % 2 = 1) then q + 1 else q
    Int.sign x * ((q1 * 2 ^ e : Nat) : Int)

/-- Go `int64(f)` of an integral float value. -/
def int64OfFloat (f : Int) : Int := wrapInt64 f

/-- Lines 146-151: the part of the fetched chunk sent to the caller; `none` is
the slicing panic. -/
def responseSlice (fOffset size : Int) (bytes : Bytes) : Option Bytes :=
  let sOffset := int64OfFloat (min (float64 fOffset) (float64 (Bytes.len bytes)))
  let eOffset := int64OfFloat (min (float64 (wrapInt64 (fOffset + size))) (float64 (Bytes.len bytes)))
  Bytes.slice bytes sOffset eOffset

/-! ## download.go: getChunk -/

/-- Modelled from the spec: `ChunkManager` is not among the sources. Its
contract (`GetChunk`, `StoreChunk`, the `ChunkSize` constant) is taken as a
parameter: any state type and any two functions on it. -/
structure ChunkManager (σ : Type) where
  ChunkSize : Int
  GetChunk : σ → APIObject → Int → Int → (Bytes × GoError) × σ
  StoreChunk : σ → APIObject → Int → Bytes → GoError × σ

/-- Everything a call of `getChunk` reads or changes: the chunk manager's state,
the keys of `DownloadQueue`, the receives pending on response channels (one
entry per receive that will happen), and the network. -/
structure World (σ : Type) where
  chunks : σ
  DownloadQueue : List String
  receivers : List Nat
  net : Net

/-- A send on an unbuffered channel: it completes when a receive is pending on
that channel, and blocks (`none`) otherwise. -/
def World.send {σ : Type} (w : World σ) (ch : Nat) (resp : downloadResponse) : Option (World σ) :=
  if ch ∈ w.receivers then
    some { w with receivers := w.receivers.erase ch,
                  net := { w.net with trace := w.net.trace ++ [.send ch resp] } }
  else none

/-- `cmap.SetIfAbsent` on the keys. -/
def setIfAbsent (q : List String) (k : String) : List String := if k ∈ q then q else k :: q

/-- `DownloadManager.getChunk`. The first argument bounds the depth of the
recursion (the wait for a pending download, and the retries of
`downloadFromAPI`). -/
def getChunk {σ : Type} (cm : ChunkManager σ) (client : HttpClient) :
    Nat → downloadRequest → Bool → World σ → Run (World σ)
  | 0, _, _, _ => .exhausted
  | fuel + 1, request, highPrio, w =>
    if cm.ChunkSize = 0 then .panicked w.net.trace
    else
      let fOffset := Int.tmod request.offset cm.ChunkSize
      let offsetStart := request.offset - fOffset
      let chunkID := request.object.ObjectID ++ ":" ++ toString offsetStart
      let got := cm.GetChunk w.chunks request.object request.offset request.size
      let w1 : World σ := { w with chunks := got.2 }
      match got.1.2 with
      | none =>
        match request.response with
        | none => .done w1
        | some ch =>
          match w1.send ch ⟨got.1.1, none⟩ with
          | some w2 => .done w2
          | none => .blocked w1.net.trace
      | some _ =>
        if chunkID ∈ w1.DownloadQueue then
          getChunk cm client fuel request highPrio
            { w1 with net := { w1.net with trace := w1.net.trace ++ [.sleepMillis 100] } }
        else
          let w2 : World σ := { w1 with DownloadQueue := setIfAbsent w1.DownloadQueue chunkID }
          match downloadFromAPI client cm.ChunkSize fuel 0 request highPrio w2.net with
          | .exhausted => .exhausted
          | .panicked t => .panicked t
          | .blocked t => .blocked t
          | .done ((bytes, err), net) =>
            let w3 : World σ := { w2 with net := net }
            let afterError : Option (World σ) :=
              match err, request.response with
              | some e, some ch => w3.send ch ⟨none, some e⟩
              | _, _ => some w3
            match afterError with
            | none => .blocked w3.net.trace
            | some w4 =>
              let stored := cm.StoreChunk w4.chunks request.object request.offset bytes
              let w5 : World σ :=
                { w4 with chunks := stored.2,
                          net := { w4.net with trace := w4.net.trace ++
                            [.storeChunk request.object request.offset bytes] } }
              let w6 : World σ :=
                { w5 with DownloadQueue := w5.DownloadQueue.filter (fun k => decide (k ≠ chunkID)) }
              match request.response with
              | none => .done w6
              | some ch =>
                match responseSlice fOffset request.size bytes with
                | none => .panicked w6.net.trace
                | some content =>
                  match w6.send ch ⟨content, none⟩ with
                  | some w7 => .done w7
                  | none => .blocked w6.net.trace

/-! ## download.go: DownloadHighPrio -/

/-- The loop of lines 79-86, by the number of iterations `i < m.ReadAhead` still
allowed: the low-priority requests put on `LowPrioQueue`, in order. -/
def readAheadLoop (chunkSize : Int) (object : APIObject) (size : Int) :
    Nat → Int → List downloadRequest
  | 0, _ => []
  | n + 1, readAheadOffset =>
    if toUint64 readAheadOffset < object.Size then
      ⟨object, readAheadOffset, size, none⟩ ::
        readAheadLoop chunkSize object size n (wrapInt64 (readAheadOffset + chunkSize))
    else []

/-- The requests `DownloadHighPrio` enqueues: the one put on `HighPrioQueue`
(with the fresh response channel `ch`) and those put on `LowPrioQueue`. -/
def DownloadHighPrio (chunkSize : Int) (ReadAhead : Int) (object : APIObject)
    (offset size : Int) (ch : Nat) : downloadRequest × List downloadRequest :=
  (⟨object, offset, size, some ch⟩,
   readAheadLoop chunkSize object size ReadAhead.toNat (wrapInt64 (offset + chunkSize)))

/-! ## download.go: the two worker loops, interleaved

`downloadThreadHighPrio` and `downloadThreadLowPrio` each run `getChunk`. The
operations on shared state inside `getChunk` are `GetChunk`, `DownloadQueue.Has`,
`DownloadQueue.SetIfAbsent`, the network fetch, `StoreChunk` and
`DownloadQueue.Remove`; each is one step of the worker that performs it, and a
schedule says which worker moves next. The chunk manager is reduced to the set
of chunk ids it holds, and every fetch succeeds. -/

/-- The statement of `getChunk` a worker executes next. -/
inductive Pc where
  | atGetChunk
  | atHas
  | atSetIfAbsent
  | atDownload
  | downloading
  | atStoreChunk
  | atRemove
  | finished
deriving Repr, DecidableEq

/-- The two worker loops. -/
inductive Lane where
  | high
  | low
deriving Repr, DecidableEq

/-- The shared state and the two program counters. -/
structure Workers where
  stored : List String
  DownloadQueue : List String
  pcHigh : Pc
  pcLow : Pc
  fetchesStarted : Nat
deriving Repr, DecidableEq

/-- One statement of `getChunk` for chunk id `chunkID`, from program counter `pc`:
the new program counter and the new shared state. -/
def stepWorker (chunkID : String) (pc : Pc) (s : Workers) : Pc × Workers :=
  match pc with
  | .atGetChunk => if chunkID ∈ s.stored then (.finished, s) else (.atHas, s)
  | .atHas => if chunkID ∈ s.DownloadQueue then (.atGetChunk, s) else (.atSetIfAbsent, s)
  | .atSetIfAbsent => (.atDownload, { s with DownloadQueue := setIfAbsent s.DownloadQueue chunkID })
  | .atDownload => (.downloading, { s with fetchesStarted := s.fetchesStarted + 1 })
  | .downloading => (.atStoreChunk, s)
  | .atStoreChunk => (.atRemove, { s with stored := chunkID :: s.stored })
  | .atRemove =>
    (.finished, { s with DownloadQueue := s.DownloadQueue.filter (fun k => decide (k ≠ chunkID)) })
  | .finished => (.finished, s)

/-- One step of the worker of the given lane. -/
def Workers.step (chunkHigh chunkLow : String) (s : Workers) : Lane → Workers
  | .high => let r := stepWorker chunkHigh s.pcHigh s; { r.2 with pcHigh := r.1 }
  | .low => let r := stepWorker chunkLow s.pcLow s; { r.2 with pcLow := r.1 }

/-- A schedule, run from a state. -/
def Workers.run (chunkHigh chunkLow : String) (s : Workers) (schedule : List Lane) : Workers :=
  schedule.foldl (Workers.step chunkHigh chunkLow) s

/-- The number of network fetches in flight for `chunkID`. -/
def Workers.inFlight (chunkHigh chunkLow : String) (s : Workers) (chunkID : String) : Nat :=
  (if s.pcHigh = .downloading ∧ chunkHigh = chunkID then 1 else 0) +
  (if s.pcLow = .downloading ∧ chunkLow = chunkID then 1 else 0)

/-- Both workers about to start `getChunk`, nothing cached, nothing pending. -/
def Workers.init : Workers := ⟨[], [], .atGetChunk, .atGetChunk, 0⟩

/-! ## Observations on runs and sample inputs -/

/-- The state of the capacity-2 scenario after `Store("a")`, `Store("b")`, `Load("a")`. -/
def scenarioBeforeC : Storage :=
  ((((NewStorage 4 2 (.memory NewMemoryCache)).Store "a" (some [1])).2.Store "b" (some [2])).2.Load
    "a").2

/-- An empty on-disk cache under "/cache" in an environment without faults; the
identity stands in for the hash. -/
def sampleDisk : DiskCache := ⟨"/cache", fun id => id, ⟨true, []⟩, DiskFaults.healthy⟩

/-- A server that throttles every request. -/
def alwaysThrottled : HttpClient :=
  ⟨fun _ => true, fun _ _ _ => .reply 403 (some (asciiBytes "x rateLimitExceeded y"))⟩

/-- A server that throttles the first three requests and then serves nine bytes. -/
def throttledThrice : HttpClient :=
  ⟨fun _ => true, fun n _ _ =>
    if n < 3 then .reply 403 (some (asciiBytes "rateLimitExceeded"))
    else .reply 206 (some [1, 2, 3, 4, 5, 6, 7, 8, 9])⟩

/-- A read of 3 bytes at offset 7 of a 100-byte object, answered on channel 0. -/
def sampleRequest : downloadRequest := ⟨⟨"o", "n", 100, "u"⟩, 7, 3, some 0⟩

/-- The `Range` header `downloadFromAPI` sends for a request. -/
def rangeHeader (chunkSize : Int) (request : downloadRequest) : String :=
  "bytes=" ++ toString (request.offset - Int.tmod request.offset chunkSize) ++ "-" ++
    toString (wrapInt64 (request.offset - Int.tmod request.offset chunkSize + chunkSize))

/-- The event of one GET for a request. -/
def getEvent (chunkSize : Int) (request : downloadRequest) : Event :=
  .httpGet request.object.DownloadURL (rangeHeader chunkSize request)

/-- The sleeps of a trace, in seconds, in order. -/
def sleepsOf (t : List Event) : List Int :=
  t.filterMap (fun e => match e with | .sleep d => some d | _ => none)

/-- The sleeps performed by a finished call of `downloadFromAPI`. -/
def sleepsOfRun : Run ((Bytes × GoError) × Net) → List Int
  | .done r => sleepsOf r.2.trace
  | _ => []

/-- The error a finished call of `downloadFromAPI` returns. -/
def errorOfRun : Run ((Bytes × GoError) × Net) → GoError
  | .done r => r.1.2
  | _ => none

/-- The events of a call that is throttled `k` times and then answered: the
first GET, then `k` times a sleep of `2^i` seconds followed by the same GET. -/
def retryTrace (g : Event) : Nat → List Event
  | 0 => [g]
  | k + 1 => retryTrace g k ++ [.sleep (2 ^ k), g]

/-- The GET requests of a trace, as pairs of URL and `Range` header, in order. -/
def requestsOf (t : List Event) : List (String × String) :=
  t.filterMap (fun e => match e with | .httpGet u r => some (u, r) | _ => none)

/-- The chunk id `getChunk` computes for a request. -/
def chunkIDOf (chunkSize : Int) (request : downloadRequest) : String :=
  request.object.ObjectID ++ ":" ++ toString (request.offset - Int.tmod request.offset chunkSize)

/-- A chunk manager that holds nothing: every `GetChunk` misses. -/
def emptyManager : ChunkManager Unit :=
  ⟨10, fun _ _ _ _ => ((none, some "chunk not found"), ()), fun _ _ _ _ => (none, ())⟩

/-- A server that serves nine bytes. -/
def servesNine : HttpClient :=
  ⟨fun _ => true, fun _ _ _ => .reply 206 (some [1, 2, 3, 4, 5, 6, 7, 8, 9])⟩

/-- A server that answers every request with status 500. -/
def serverError : HttpClient := ⟨fun _ => true, fun _ _ _ => .reply 500 none⟩

/-- How a run of `getChunk` ended, and the events up to that point. -/
def outcomeOf {σ : Type} : Run (World σ) → String × List Event
  | .done w => ("returned", w.net.trace)
  | .panicked t => ("panicked", t)
  | .blocked t => ("blocked", t)
  | .exhausted => ("exhausted", [])

/-- The keys left in `DownloadQueue` when `getChunk` returned. -/
def queueOf {σ : Type} : Run (World σ) → List String
  | .done w => w.DownloadQueue
  | _ => []

/-- The offsets of a list of requests. -/
def offsetsOf (rs : List downloadRequest) : List Int := rs.map (fun r => r.offset)

/-! ## Properties of the chunk storage -/

theorem mapGet_mapSet_self {α : Type} (m : List (String × α)) (k : String) (v : α) :
    mapGet (mapSet m k v) k = some v := by
  simp [mapSet, mapGet]

theorem mem_keys_mapDelete {α : Type} (m : List (String × α)) (k x : String) :
    x ∈ (mapDelete m k).map Prod.fst ↔ x ∈ m.map Prod.fst ∧ x ≠ k := by
  simp only [mapDelete, List.mem_map, List.mem_filter, decide_eq_true_eq]
  constructor
  · rintro ⟨p, ⟨hp, hne⟩, rfl⟩
    exact ⟨⟨p, hp, rfl⟩, hne⟩
  · rintro ⟨⟨p, hp, rfl⟩, hne⟩
    exact ⟨p, ⟨hp, hne⟩, rfl⟩

theorem mem_keys_mapSet {α : Type} (m : List (String × α)) (k x : String) (v : α) :
    x ∈ (mapSet m k v).map Prod.fst ↔ x = k ∨ x ∈ m.map Prod.fst := by
  unfold mapSet
  rw [List.map_cons, List.mem_cons, mem_keys_mapDelete]
  by_cases h : x = k <;> simp [h]

theorem mapGet_mapDelete_ne {α : Type} (m : List (String × α)) (k x : String) (h : x ≠ k) :
    mapGet (mapDelete m k) x = mapGet m x := by
  induction m with
  | nil => rfl
  | cons p rest ih =>
    obtain ⟨k1, v1⟩ := p
    unfold mapDelete at ih ⊢
    by_cases hk : k1 = k
    · have hx : ¬ k1 = x := fun e => h (e.symm.trans hk)
      have e : List.filter (fun p : String × α => decide (p.1 ≠ k)) ((k1, v1) :: rest)
          = List.filter (fun p : String × α => decide (p.1 ≠ k)) rest :=
        List.filter_cons_of_neg (by simp [hk])
      rw [e, ih, mapGet, if_neg hx]
    · have e : List.filter (fun p : String × α => decide (p.1 ≠ k)) ((k1, v1) :: rest)
          = (k1, v1) :: List.filter (fun p : String × α => decide (p.1 ≠ k)) rest :=
        List.filter_cons_of_pos (by simp [hk])
      rw [e, mapGet, mapGet, ih]

theorem mapGet_mapSet_ne {α : Type} (m : List (String × α)) (k x : String) (v : α) (h : x ≠ k) :
    mapGet (mapSet m k v) x = mapGet m x := by
  have hk : ¬ k = x := fun e => h e.symm
  rw [mapSet, mapGet, if_neg hk, mapGet_mapDelete_ne m k x h]

/-- On the in-memory backend `Storage.Store` leaves a memory backend whose keys
are the old keys and the stored id, which maps the stored id to the stored
bytes and every other id to what it had, whatever the tracker holds. -/
theorem Store_memory_keys (chunkSize maxChunks : Int) (c : MemoryCache) (st : Stack)
    (id : String) (b : Bytes) :
    ∃ c1 st1, (Storage.Store ⟨chunkSize, maxChunks, .memory c, st⟩ id b).2
        = ⟨chunkSize, maxChunks, .memory c1, st1⟩ ∧
      (∀ x, x ∈ c1.chunks.map Prod.fst ↔ x = id ∨ x ∈ c.chunks.map Prod.fst) ∧
      mapGet c1.chunks id = some b ∧
      (∀ x, x ≠ id → mapGet c1.chunks x = mapGet c.chunks x) := by
  by_cases hp : "" ≠ (Stack.Pop st).1
  · refine ⟨⟨mapSet (mapDelete c.chunks id) id b⟩, (Stack.Pop st).2.Push id, ?_, ?_, ?_, ?_⟩
    · simp [Storage.Store, hp, Cache.Remove, Cache.Store, MemoryCache.Store,
        MemoryCache.Remove]
    · intro x
      rw [mem_keys_mapSet, mem_keys_mapDelete]
      by_cases h : x = id <;> simp [h]
    · exact mapGet_mapSet_self _ _ _
    · intro x hx
      rw [mapGet_mapSet_ne _ _ _ _ hx, mapGet_mapDelete_ne _ _ _ hx]
  · refine ⟨⟨mapSet c.chunks id b⟩, (Stack.Pop st).2.Push id, ?_, ?_, ?_, ?_⟩
    · simp [Storage.Store, hp, Cache.Store, MemoryCache.Store]
    · intro x
      rw [mem_keys_mapSet]
    · exact mapGet_mapSet_self _ _ _
    · intro x hx
      rw [mapGet_mapSet_ne _ _ _ _ hx]

theorem storeAll_memory_keys (chunkSize maxChunks : Int) (items : List (String × Bytes)) :
    ∀ (c : MemoryCache) (st : Stack),
      ∃ c1 st1, Storage.storeAll ⟨chunkSize, maxChunks, .memory c, st⟩ items
          = ⟨chunkSize, maxChunks, .memory c1, st1⟩ ∧
        (∀ x, x ∈ c1.chunks.map Prod.fst ↔ x ∈ items.map Prod.fst ∨ x ∈ c.chunks.map Prod.fst) ∧
        (∀ x, x ∉ items.map Prod.fst → mapGet c1.chunks x = mapGet c.chunks x) ∧
        ((items.map Prod.fst).Nodup → ∀ p, p ∈ items → mapGet c1.chunks p.1 = some p.2) := by
  induction items with
  | nil => intro c st; exact ⟨c, st, rfl, by simp, by simp, by simp⟩
  | cons p rest ih =>
    intro c st
    obtain ⟨id, b⟩ := p
    obtain ⟨c1, st1, h1, hk1, hself1, hother1⟩ := Store_memory_keys chunkSize maxChunks c st id b
    obtain ⟨c2, st2, h2, hk2, hother2, hitems2⟩ := ih c1 st1
    refine ⟨c2, st2, ?_, ?_, ?_, ?_⟩
    · simp only [Storage.storeAll, h1, h2]
    · intro x
      rw [hk2, hk1]
      simp only [List.map_cons, List.mem_cons]
      tauto
    · intro x hx
      simp only [List.map_cons, List.mem_cons, not_or] at hx
      rw [hother2 x hx.2, hother1 x hx.1]
    · intro hnodup q hq
      simp only [List.map_cons, List.nodup_cons] at hnodup
      rcases List.mem_cons.mp hq with rfl | hq
      · rw [hother2 _ hnodup.1, hself1]
      · exact hitems2 hnodup.2 q hq

/-- C1: on a `Storage` of any capacity over an initially empty in-memory cache,
after `Store` calls for pairwise distinct ids with non-nil bytes the backend
holds bytes for every one of them: the number of held ids is the number of ids
stored, which exceeds the capacity as soon as more than `maxChunks` ids are
stored. -/
theorem Store_memory_holds_every_id (chunkSize maxChunks : Int) (items : List (String × Bytes))
    (hdistinct : (items.map Prod.fst).Nodup) (hbytes : ∀ p, p ∈ items → p.2 ≠ none) :
    (Storage.storeAll (NewStorage chunkSize maxChunks (.memory NewMemoryCache)) items).heldCount
      = items.length := by
  obtain ⟨c1, st1, h1, hk, _, hget⟩ :=
    storeAll_memory_keys chunkSize maxChunks items NewMemoryCache (NewStack maxChunks)
  have h0 : NewStorage chunkSize maxChunks (.memory NewMemoryCache)
      = ⟨chunkSize, maxChunks, .memory NewMemoryCache, NewStack maxChunks⟩ := rfl
  rw [h0, h1]
  simp only [Storage.heldCount, Cache.keys, Cache.Load]
  have hall : ∀ id, id ∈ (c1.chunks.map Prod.fst).dedup → (c1.Load id).isSome = true := by
    intro id hid
    rw [List.mem_dedup, hk] at hid
    rcases hid with hid | hid
    · obtain ⟨p, hp, rfl⟩ := List.mem_map.mp hid
      have hne := hbytes p hp
      simp only [MemoryCache.Load, hget hdistinct p hp]
      exact Option.isSome_iff_ne_none.mpr hne
    · simp [NewMemoryCache] at hid
  rw [List.filter_eq_self.mpr hall, ← List.card_toFinset]
  have hset : (c1.chunks.map Prod.fst).toFinset = (items.map Prod.fst).toFinset := by
    ext x
    simp only [List.mem_toFinset]
    rw [hk]
    simp [NewMemoryCache]
  rw [hset, List.toFinset_card_of_nodup hdistinct, List.length_map]

/-- C1, at capacity 1: after `Store("a")`, `Store("b")` two ids are held. -/
theorem Store_memory_holds_every_id_witness :
    (([("a", some [1]), ("b", some [2])] : List (String × Bytes)).map Prod.fst).Nodup ∧
    (Storage.storeAll (NewStorage 4 1 (.memory NewMemoryCache))
      [("a", some [1]), ("b", some [2])]).heldCount = 2 :=
  ⟨by decide, Store_memory_holds_every_id 4 1 [("a", some [1]), ("b", some [2])] (by decide)
    (by decide)⟩

/-- C2: in the capacity-2 scenario `Store("a")`, `Store("b")`, `Load("a")`,
`Store("c")` the tracker's `Pop` names "b" for eviction, yet afterwards
`Load("b")` still returns the bytes stored for "b" (as do "a" and "c"): the
backend entry of the popped id is not removed. -/
theorem Store_keeps_popped_id :
    scenarioBeforeC.stack.Pop.1 = "b" ∧
    ((scenarioBeforeC.Store "c" (some [3])).2.Load "b").1 = some [2] ∧
    ((scenarioBeforeC.Store "c" (some [3])).2.Load "a").1 = some [1] ∧
    ((scenarioBeforeC.Store "c" (some [3])).2.Load "c").1 = some [3] := by
  decide

/-- C3: on a `Storage` over an in-memory cache in any state (any capacity, any
tracker contents), `Store(id, b)` with a non-nil `b` returns no error, the
following `Load(id)` returns exactly `b`, and so does a second `Load(id)`. -/
theorem Store_Load_roundtrip (chunkSize maxChunks : Int) (c : MemoryCache) (st : Stack)
    (id : String) (b : List UInt8) :
    let s : Storage := ⟨chunkSize, maxChunks, .memory c, st⟩
    (s.Store id (some b)).1 = none ∧
    ((s.Store id (some b)).2.Load id).1 = some b ∧
    (((s.Store id (some b)).2.Load id).2.Load id).1 = some b := by
  intro s
  have hload : ∀ (c1 : Cache), c1 = s.cache ∨ c1 = (s.cache.Remove id).2 →
      ∀ st1 : Stack, ((Storage.mk chunkSize maxChunks (c1.Store id (some b)).2 st1).Load id)
        = (some b, ⟨chunkSize, maxChunks, (c1.Store id (some b)).2, st1.Touch id⟩) := by
    intro c1 hc1 st1
    rcases hc1 with h | h <;> subst h <;>
      simp [s, Storage.Load, Cache.Load, Cache.Store, Cache.Remove, MemoryCache.Load,
        MemoryCache.Store, MemoryCache.Remove, mapGet_mapSet_self]
  by_cases hp : "" ≠ (Stack.Pop st).1
  · have hs : s.Store id (some b) = (none, ⟨chunkSize, maxChunks,
        ((s.cache.Remove id).2.Store id (some b)).2, (Stack.Pop st).2.Push id⟩) := by
      simp [s, Storage.Store, hp, Cache.Store, Cache.Remove, MemoryCache.Store, MemoryCache.Remove]
    rw [hs]
    refine ⟨rfl, ?_, ?_⟩
    · rw [hload _ (Or.inr rfl)]
    · rw [hload _ (Or.inr rfl), hload _ (Or.inr rfl)]
  · have hs : s.Store id (some b) = (none, ⟨chunkSize, maxChunks,
        (s.cache.Store id (some b)).2, (Stack.Pop st).2.Push id⟩) := by
      simp [s, Storage.Store, hp, Cache.Store, MemoryCache.Store]
    rw [hs]
    refine ⟨rfl, ?_, ?_⟩
    · rw [hload _ (Or.inl rfl)]
    · rw [hload _ (Or.inl rfl), hload _ (Or.inl rfl)]

/-- C8, as stated, fails on the in-memory backend: after `Store("a", [1])` and
a `Clear()` that returns no error, `Load("a")` still returns `[1]`. -/
theorem Clear_memory_keeps_chunks :
    (((NewStorage 4 2 (.memory NewMemoryCache)).Store "a" (some [1])).2.Clear).1 = none ∧
    ((((NewStorage 4 2 (.memory NewMemoryCache)).Store "a" (some [1])).2.Clear).2.Load "a").1
      = some [1] := by
  decide

/-- C8, amended: over a `DiskCache` in any state, when `Storage.Clear()`
returns no error then afterwards `Load(id)` returns `nil` for every id; over a
`MemoryCache` `Storage.Clear()` returns no error and leaves the storage as it
was. -/
theorem Clear_disk_empties_memory_unchanged (chunkSize maxChunks : Int) (st : Stack) :
    (∀ (d : DiskCache) (id : String),
      let s : Storage := ⟨chunkSize, maxChunks, .disk d, st⟩
      (s.Clear).1 = none → ((s.Clear).2.Load id).1 = none) ∧
    (∀ (c : MemoryCache),
      let s : Storage := ⟨chunkSize, maxChunks, .memory c, st⟩
      (s.Clear).1 = none ∧ (s.Clear).2 = s) := by
  constructor
  · intro d id s hclear
    have hfs : (d.Clear).2.fs = ⟨true, []⟩ := by
      have h1 : (d.Clear).1 = none := hclear
      unfold DiskCache.Clear at h1 ⊢
      cases hr : d.faults.removeAllErr with
      | some e => simp [hr] at h1
      | none =>
        cases hm : d.faults.mkdirAllErr with
        | some e => simp [hr, hm] at h1
        | none => rfl
    simp [s, Storage.Clear, Storage.Load, Cache.Clear, Cache.Load, DiskCache.Load, hfs, mapGet]
  · intro c
    simp [Storage.Clear, Cache.Clear, MemoryCache.Clear]

/-- C8, amended, on a disk cache without faults: "a" stored with bytes `[1]`
loads them, `Clear()` returns no error, and afterwards `Load("a")` is `nil`. -/
theorem Clear_disk_empties_memory_unchanged_witness :
    (((NewStorage 4 2 (.disk sampleDisk)).Store "a" (some [1])).2.Load "a").1 = some [1] ∧
    (((NewStorage 4 2 (.disk sampleDisk)).Store "a" (some [1])).2.Clear).1 = none ∧
    ((((NewStorage 4 2 (.disk sampleDisk)).Store "a" (some [1])).2.Clear).2.Load "a").1 = none :=
  ⟨by decide, rfl,
    (Clear_disk_empties_memory_unchanged 4 2
      ((NewStorage 4 2 (.disk sampleDisk)).Store "a" (some [1])).2.stack).1
      (DiskCache.Store sampleDisk "a" (some [1])).2 "a" rfl⟩

/-! ## Properties of downloadFromAPI -/

theorem downloadFromAPI_throttled (client : HttpClient) (chunkSize : Int) (fuel : Nat)
    (delay : Int) (request : downloadRequest) (highPrio : Bool) (n : Nat) (t : List Event)
    (body : List UInt8) (hC : chunkSize ≠ 0)
    (hurl : client.validURL request.object.DownloadURL = true)
    (hdelay : 0 < delay) (hdelay8 : delay ≤ 8)
    (hreply : client.roundTrip n request.object.DownloadURL (rangeHeader chunkSize request)
      = .reply 403 (some body))
    (hbody : isRateLimitBody body = true) :
    downloadFromAPI client chunkSize (fuel + 1) delay request highPrio ⟨n, t⟩ =
      downloadFromAPI client chunkSize fuel (delay * 2) request highPrio
        ⟨n + 1, t ++ [.sleep delay, getEvent chunkSize request]⟩ := by
  have hne : (0 : Int) ≠ delay := by omega
  have hw : wrapInt64 (delay * 2) = delay * 2 := by unfold wrapInt64; omega
  have hnot : ¬ delay > 8 := by omega
  rw [downloadFromAPI]
  simp only [rangeHeader] at hreply
  simp [hC, hurl, hdelay, hreply, hbody, hne, hw, hnot, getEvent, rangeHeader]

theorem downloadFromAPI_throttled_zero (client : HttpClient) (chunkSize : Int) (fuel : Nat)
    (request : downloadRequest) (highPrio : Bool) (n : Nat) (t : List Event)
    (body : List UInt8) (hC : chunkSize ≠ 0)
    (hurl : client.validURL request.object.DownloadURL = true)
    (hreply : client.roundTrip n request.object.DownloadURL (rangeHeader chunkSize request)
      = .reply 403 (some body))
    (hbody : isRateLimitBody body = true) :
    downloadFromAPI client chunkSize (fuel + 1) 0 request highPrio ⟨n, t⟩ =
      downloadFromAPI client chunkSize fuel 1 request highPrio
        ⟨n + 1, t ++ [getEvent chunkSize request]⟩ := by
  rw [downloadFromAPI]
  simp only [rangeHeader] at hreply
  simp [hC, hurl, hreply, hbody, getEvent, rangeHeader]

theorem downloadFromAPI_ceiling (client : HttpClient) (chunkSize : Int) (fuel : Nat)
    (delay : Int) (request : downloadRequest) (highPrio : Bool) (n : Nat) (t : List Event)
    (body : Option (List UInt8)) (hC : chunkSize ≠ 0)
    (hurl : client.validURL request.object.DownloadURL = true)
    (hdelay : 8 < delay)
    (hreply : client.roundTrip n request.object.DownloadURL (rangeHeader chunkSize request)
      = .reply 403 body) :
    downloadFromAPI client chunkSize (fuel + 1) delay request highPrio ⟨n, t⟩ =
      .done ((none, some "Maximum throttle interval has been reached"),
        ⟨n + 1, t ++ [.sleep delay, getEvent chunkSize request]⟩) := by
  have hpos : delay > 0 := by omega
  rw [downloadFromAPI]
  simp only [rangeHeader] at hreply
  simp [hC, hurl, hpos, hreply, hdelay, getEvent, rangeHeader]

theorem downloadFromAPI_status206 (client : HttpClient) (chunkSize : Int) (fuel : Nat)
    (delay : Int) (request : downloadRequest) (highPrio : Bool) (n : Nat) (t : List Event)
    (b : List UInt8) (hC : chunkSize ≠ 0)
    (hurl : client.validURL request.object.DownloadURL = true)
    (hreply : client.roundTrip n request.object.DownloadURL (rangeHeader chunkSize request)
      = .reply 206 (some b)) :
    downloadFromAPI client chunkSize (fuel + 1) delay request highPrio ⟨n, t⟩ =
      .done ((some b, none),
        ⟨n + 1, t ++ (if delay > 0 then [.sleep delay] else []) ++ [getEvent chunkSize request]⟩) := by
  rw [downloadFromAPI]
  simp only [rangeHeader] at hreply
  by_cases hd : delay > 0 <;> simp [hC, hurl, hd, hreply, getEvent, rangeHeader]

/-- C5, as stated, fails: against a server that throttles every request the
call sleeps 1, 2, 4, 8 and then 16 seconds before it fails. -/
theorem downloadFromAPI_sleeps_sixteen :
    sleepsOfRun (downloadFromAPI alwaysThrottled 10 6 0 sampleRequest true ⟨0, []⟩)
      = [1, 2, 4, 8, 16] ∧
    errorOfRun (downloadFromAPI alwaysThrottled 10 6 0 sampleRequest true ⟨0, []⟩)
      = some "Maximum throttle interval has been reached" := by
  decide

/-- C5, amended: started with delay 0 against a server that answers every
request with status 403 and a body naming a rate limit, `downloadFromAPI`
issues six requests, sleeps exactly 1, 2, 4, 8 and 16 seconds between them, and
then fails with "Maximum throttle interval has been reached". -/
theorem downloadFromAPI_backoff_ceiling (client : HttpClient) (chunkSize : Int) (fuel : Nat)
    (request : downloadRequest) (highPrio : Bool) (n : Nat) (t : List Event)
    (hC : chunkSize ≠ 0)
    (hurl : client.validURL request.object.DownloadURL = true)
    (hthrottle : ∀ i u r, ∃ body,
      client.roundTrip i u r = .reply 403 (some body) ∧ isRateLimitBody body = true) :
    downloadFromAPI client chunkSize (fuel + 6) 0 request highPrio ⟨n, t⟩ =
      .done ((none, some "Maximum throttle interval has been reached"),
        ⟨n + 6, t ++ [getEvent chunkSize request,
          .sleep 1, getEvent chunkSize request,
          .sleep 2, getEvent chunkSize request,
          .sleep 4, getEvent chunkSize request,
          .sleep 8, getEvent chunkSize request,
          .sleep 16, getEvent chunkSize request]⟩) := by
  obtain ⟨b0, h0, hb0⟩ := hthrottle n request.object.DownloadURL (rangeHeader chunkSize request)
  obtain ⟨b1, h1, hb1⟩ := hthrottle (n + 1) request.object.DownloadURL (rangeHeader chunkSize request)
  obtain ⟨b2, h2, hb2⟩ := hthrottle (n + 2) request.object.DownloadURL (rangeHeader chunkSize request)
  obtain ⟨b3, h3, hb3⟩ := hthrottle (n + 3) request.object.DownloadURL (rangeHeader chunkSize request)
  obtain ⟨b4, h4, hb4⟩ := hthrottle (n + 4) request.object.DownloadURL (rangeHeader chunkSize request)
  obtain ⟨b5, h5, _⟩ := hthrottle (n + 5) request.object.DownloadURL (rangeHeader chunkSize request)
  have s0 := downloadFromAPI_throttled_zero client chunkSize (fuel + 5) request highPrio n t b0
    hC hurl h0 hb0
  have s1 := downloadFromAPI_throttled client chunkSize (fuel + 4) 1 request highPrio (n + 1)
    (t ++ [getEvent chunkSize request]) b1 hC hurl (by norm_num) (by norm_num) h1 hb1
  have s2 := downloadFromAPI_throttled client chunkSize (fuel + 3) 2 request highPrio (n + 2)
    (t ++ [getEvent chunkSize request] ++ [.sleep 1, getEvent chunkSize request]) b2 hC hurl
    (by norm_num) (by norm_num) h2 hb2
  have s3 := downloadFromAPI_throttled client chunkSize (fuel + 2) 4 request highPrio (n + 3)
    (t ++ [getEvent chunkSize request] ++ [.sleep 1, getEvent chunkSize request]
      ++ [.sleep 2, getEvent chunkSize request]) b3 hC hurl
    (by norm_num) (by norm_num) h3 hb3
  have s4 := downloadFromAPI_throttled client chunkSize (fuel + 1) 8 request highPrio (n + 4)
    (t ++ [getEvent chunkSize request] ++ [.sleep 1, getEvent chunkSize request]
      ++ [.sleep 2, getEvent chunkSize request] ++ [.sleep 4, getEvent chunkSize request]) b4
    hC hurl (by norm_num) (by norm_num) h4 hb4
  have s5 := downloadFromAPI_ceiling client chunkSize fuel 16 request highPrio (n + 5)
    (t ++ [getEvent chunkSize request] ++ [.sleep 1, getEvent chunkSize request]
      ++ [.sleep 2, getEvent chunkSize request] ++ [.sleep 4, getEvent chunkSize request]
      ++ [.sleep 8, getEvent chunkSize request]) (some b5) hC hurl (by norm_num) h5
  have e := s0.trans (s1.trans (s2.trans (s3.trans (s4.trans s5))))
  simpa [List.append_assoc] using e

/-- C5, amended, at a server that throttles every request. -/
theorem downloadFromAPI_backoff_ceiling_witness :
    downloadFromAPI alwaysThrottled 10 6 0 sampleRequest true ⟨0, []⟩ =
      .done ((none, some "Maximum throttle interval has been reached"),
        ⟨6, [getEvent 10 sampleRequest,
          .sleep 1, getEvent 10 sampleRequest,
          .sleep 2, getEvent 10 sampleRequest,
          .sleep 4, getEvent 10 sampleRequest,
          .sleep 8, getEvent 10 sampleRequest,
          .sleep 16, getEvent 10 sampleRequest]⟩) :=
  downloadFromAPI_backoff_ceiling alwaysThrottled 10 0 sampleRequest true 0 []
    (by decide) rfl (fun _ _ _ => ⟨_, rfl, by decide⟩)

/-- C6: if the server answers the first `k ≤ 3` requests with status 403 and a
body naming a rate limit and the next one with status 206 and body `b`, then
`downloadFromAPI` started with delay 0 returns exactly `b` and no error, issues
`k + 1` requests, all the same GET with the same `Range` header, and sleeps
1, 2, ..., 2^(k-1) seconds, one sleep before each retry. -/
theorem downloadFromAPI_throttle_then_success (client : HttpClient) (chunkSize : Int)
    (fuel k : Nat) (request : downloadRequest) (highPrio : Bool) (n : Nat) (t : List Event)
    (b : List UInt8) (hk : k ≤ 3) (hC : chunkSize ≠ 0)
    (hurl : client.validURL request.object.DownloadURL = true)
    (hthrottle : ∀ i, i < k → ∀ u r, ∃ body,
      client.roundTrip (n + i) u r = .reply 403 (some body) ∧ isRateLimitBody body = true)
    (hok : ∀ u r, client.roundTrip (n + k) u r = .reply 206 (some b)) :
    downloadFromAPI client chunkSize (fuel + k + 1) 0 request highPrio ⟨n, t⟩ =
      .done ((some b, none), ⟨n + k + 1, t ++ retryTrace (getEvent chunkSize request) k⟩) ∧
    sleepsOf (retryTrace (getEvent chunkSize request) k) = (List.range k).map (fun i => 2 ^ i) ∧
    requestsOf (retryTrace (getEvent chunkSize request) k) =
      List.replicate (k + 1) (request.object.DownloadURL, rangeHeader chunkSize request) := by
  have hok1 := hok request.object.DownloadURL (rangeHeader chunkSize request)
  interval_cases k
  · refine ⟨?_, by simp [retryTrace, sleepsOf, getEvent], by simp [retryTrace, requestsOf, getEvent]⟩
    have s0 := downloadFromAPI_status206 client chunkSize fuel 0 request highPrio n t b hC hurl hok1
    simpa [retryTrace] using s0
  · refine ⟨?_, by simp [retryTrace, sleepsOf, getEvent, List.range_succ],
      by simp [retryTrace, requestsOf, getEvent, List.replicate]⟩
    obtain ⟨b0, h0, hb0⟩ := hthrottle 0 (by norm_num) request.object.DownloadURL
      (rangeHeader chunkSize request)
    have s0 := downloadFromAPI_throttled_zero client chunkSize (fuel + 1) request highPrio n t b0
      hC hurl h0 hb0
    have s1 := downloadFromAPI_status206 client chunkSize fuel 1 request highPrio (n + 1)
      (t ++ [getEvent chunkSize request]) b hC hurl hok1
    have e := s0.trans s1
    simpa [retryTrace, List.append_assoc] using e
  · refine ⟨?_, by simp [retryTrace, sleepsOf, getEvent, List.range_succ],
      by simp [retryTrace, requestsOf, getEvent, List.replicate]⟩
    obtain ⟨b0, h0, hb0⟩ := hthrottle 0 (by norm_num) request.object.DownloadURL
      (rangeHeader chunkSize request)
    obtain ⟨b1, h1, hb1⟩ := hthrottle 1 (by norm_num) request.object.DownloadURL
      (rangeHeader chunkSize request)
    have s0 := downloadFromAPI_throttled_zero client chunkSize (fuel + 2) request highPrio n t b0
      hC hurl h0 hb0
    have s1 := downloadFromAPI_throttled client chunkSize (fuel + 1) 1 request highPrio (n + 1)
      (t ++ [getEvent chunkSize request]) b1 hC hurl (by norm_num) (by norm_num) h1 hb1
    have s2 := downloadFromAPI_status206 client chunkSize fuel 2 request highPrio (n + 2)
      (t ++ [getEvent chunkSize request] ++ [.sleep 1, getEvent chunkSize request]) b hC hurl hok1
    have e := s0.trans (s1.trans s2)
    simpa [retryTrace, List.append_assoc] using e
  · refine ⟨?_, by simp [retryTrace, sleepsOf, getEvent, List.range_succ],
      by simp [retryTrace, requestsOf, getEvent, List.replicate]⟩
    obtain ⟨b0, h0, hb0⟩ := hthrottle 0 (by norm_num) request.object.DownloadURL
      (rangeHeader chunkSize request)
    obtain ⟨b1, h1, hb1⟩ := hthrottle 1 (by norm_num) request.object.DownloadURL
      (rangeHeader chunkSize request)
    obtain ⟨b2, h2, hb2⟩ := hthrottle 2 (by norm_num) request.object.DownloadURL
      (rangeHeader chunkSize request)
    have s0 := downloadFromAPI_throttled_zero client chunkSize (fuel + 3) request highPrio n t b0
      hC hurl h0 hb0
    have s1 := downloadFromAPI_throttled client chunkSize (fuel + 2) 1 request highPrio (n + 1)
      (t ++ [getEvent chunkSize request]) b1 hC hurl (by norm_num) (by norm_num) h1 hb1
    have s2 := downloadFromAPI_throttled client chunkSize (fuel + 1) 2 request highPrio (n + 2)
      (t ++ [getEvent chunkSize request] ++ [.sleep 1, getEvent chunkSize request]) b2 hC hurl
      (by norm_num) (by norm_num) h2 hb2
    have s3 := downloadFromAPI_status206 client chunkSize fuel 4 request highPrio (n + 3)
      (t ++ [getEvent chunkSize request] ++ [.sleep 1, getEvent chunkSize request]
        ++ [.sleep 2, getEvent chunkSize request]) b hC hurl hok1
    have e := s0.trans (s1.trans (s2.trans s3))
    simpa [retryTrace, List.append_assoc] using e

/-- C6, at a server that throttles three times and then serves nine bytes: the
sleeps are 1, 2 and 4 seconds. -/
theorem downloadFromAPI_throttle_then_success_witness :
    downloadFromAPI throttledThrice 10 4 0 sampleRequest true ⟨0, []⟩ =
      .done ((some [1, 2, 3, 4, 5, 6, 7, 8, 9], none),
        ⟨4, [] ++ retryTrace (getEvent 10 sampleRequest) 3⟩) ∧
    sleepsOf (retryTrace (getEvent 10 sampleRequest) 3) = [1, 2, 4] :=
  have h := downloadFromAPI_throttle_then_success throttledThrice 10 0 3 sampleRequest true 0 []
    [1, 2, 3, 4, 5, 6, 7, 8, 9] (by decide) (by decide) rfl
    (fun i hi _ _ => ⟨asciiBytes "rateLimitExceeded", by simp [throttledThrice, hi], by decide⟩)
    (fun _ _ => rfl)
  ⟨h.1, h.2.1⟩

/-! ## Properties of getChunk -/

theorem wrapInt64_of_int64 (x : Int) (h0 : -2 ^ 63 ≤ x) (h1 : x < 2 ^ 63) : wrapInt64 x = x := by
  unfold wrapInt64
  omega

theorem float64_exact (x : Int) (h0 : 0 ≤ x) (h1 : x < 2 ^ 53) : float64 x = x := by
  have h : x.natAbs < 2 ^ 53 := by omega
  unfold float64
  simp only [h, if_true]

theorem float64_large (x : Int) (h : 2 ^ 53 ≤ x) : 2 ^ 53 ≤ float64 x := by
  have ha : 2 ^ 53 ≤ x.natAbs := by omega
  have hne : x.natAbs ≠ 0 := by omega
  have hlog : 53 ≤ x.natAbs.log2 := (Nat.le_log2 hne).2 ha
  have hself : 2 ^ x.natAbs.log2 ≤ x.natAbs := Nat.log2_self_le hne
  have hsign : Int.sign x = 1 := Int.sign_eq_one_of_pos (by omega)
  have hnot : ¬ x.natAbs < 2 ^ 53 := by omega
  simp only [float64, hnot, if_false, hsign, one_mul]
  generalize he : x.natAbs.log2 - 52 = e
  have hesplit : x.natAbs.log2 = e + 52 := by omega
  have he1 : 1 ≤ e := by omega
  have hq : 2 ^ 52 ≤ x.natAbs / 2 ^ e := by
    rw [Nat.le_div_iff_mul_le (Nat.pos_pow_of_pos e (by norm_num))]
    calc 2 ^ 52 * 2 ^ e = 2 ^ (e + 52) := by rw [← pow_add, Nat.add_comm]
      _ = 2 ^ x.natAbs.log2 := by rw [hesplit]
      _ ≤ x.natAbs := hself
  have hpe : 2 ≤ 2 ^ e := by
    calc 2 = 2 ^ 1 := by norm_num
      _ ≤ 2 ^ e := Nat.pow_le_pow_right (by norm_num) he1
  have hmul : ∀ q1 : Nat, x.natAbs / 2 ^ e ≤ q1 → (2 : Int) ^ 53 ≤ ((q1 * 2 ^ e : Nat) : Int) := by
    intro q1 hq1
    have : 2 ^ 53 ≤ q1 * 2 ^ e := by
      calc 2 ^ 53 = 2 ^ 52 * 2 := by norm_num
        _ ≤ q1 * 2 ^ e := Nat.mul_le_mul (le_trans hq hq1) hpe
    exact_mod_cast this
  split
  · exact hmul _ (Nat.le_succ _)
  · exact hmul _ (le_refl _)

/-- The slice of lines 146-151 for in-range values: the chunk from
`min f L` to `min (f + size) L`. -/
theorem responseSlice_eq (f size : Nat) (chunk : List UInt8)
    (hf : f < 2 ^ 53) (hsize : size < 2 ^ 53) (hL : chunk.length < 2 ^ 53) :
    responseSlice (f : Int) (size : Int) (some chunk) =
      some (some ((chunk.drop (min f chunk.length)).take
        (min (f + size) chunk.length - min f chunk.length))) := by
  have hfl : float64 (f : Int) = f := float64_exact _ (by omega) (by omega)
  have hLl : float64 (chunk.length : Int) = chunk.length := float64_exact _ (by omega) (by omega)
  have hw : wrapInt64 ((f : Int) + size) = (f : Int) + size :=
    wrapInt64_of_int64 _ (by omega) (by omega)
  have he : min (float64 ((f : Int) + size)) (chunk.length : Int)
      = ((min (f + size) chunk.length : Nat) : Int) := by
    by_cases hsmall : (f : Int) + size < 2 ^ 53
    · rw [float64_exact _ (by omega) hsmall]
      omega
    · have := float64_large ((f : Int) + size) (by omega)
      omega
  have hs : min ((f : Int)) (chunk.length : Int) = ((min f chunk.length : Nat) : Int) := by omega
  unfold responseSlice
  simp only [Bytes.len, hfl, hLl, hw, he, hs, int64OfFloat]
  rw [wrapInt64_of_int64 _ (by omega) (by omega), wrapInt64_of_int64 _ (by omega) (by omega)]
  have hcond : (0 : Int) ≤ ((min f chunk.length : Nat) : Int) ∧
      ((min f chunk.length : Nat) : Int) ≤ ((min (f + size) chunk.length : Nat) : Int) ∧
      ((min (f + size) chunk.length : Nat) : Int) ≤ (chunk.length : Int) := by omega
  simp only [Bytes.slice, Bytes.len, hcond, and_self, if_true, Int.toNat_ofNat]

/-- C7: when `getChunk` handles a request that misses the cache, is not
pending, and whose fetch succeeds with a chunk of length `L`, it finishes, and
what it sends to the caller (after `StoreChunk` of the whole chunk) is
`chunk[min(f, L) : min(f + size, L)]` with `f = offset mod C`; the bounds satisfy
`start ≤ end ≤ L`, the content is at most `size` long, and it is the `size`
bytes from position `f` when `f + size ≤ L`. -/
theorem getChunk_response_slice {σ : Type} (cm : ChunkManager σ) (client : HttpClient)
    (fuel : Nat) (request : downloadRequest) (highPrio : Bool) (w : World σ)
    (chunk : List UInt8) (net1 : Net) (ch : Nat)
    (hC0 : 0 < cm.ChunkSize) (hC : cm.ChunkSize < 2 ^ 53)
    (hoff0 : 0 ≤ request.offset)
    (hsize0 : 0 ≤ request.size) (hsize : request.size < 2 ^ 53)
    (hL : chunk.length < 2 ^ 53)
    (hmiss : (cm.GetChunk w.chunks request.object request.offset request.size).1.2 ≠ none)
    (hpending : chunkIDOf cm.ChunkSize request ∉ w.DownloadQueue)
    (hfetch : downloadFromAPI client cm.ChunkSize fuel 0 request highPrio w.net
      = .done ((some chunk, none), net1))
    (hresp : request.response = some ch) (hrecv : ch ∈ w.receivers) :
    let f := (request.offset % cm.ChunkSize).toNat
    let size := request.size.toNat
    let L := chunk.length
    let content := (chunk.drop (min f L)).take (min (f + size) L - min f L)
    (∃ w1, getChunk cm client (fuel + 1) request highPrio w = .done w1 ∧
      w1.net.trace = net1.trace ++
        [.storeChunk request.object request.offset (some chunk), .send ch ⟨some content, none⟩]) ∧
    min f L ≤ min (f + size) L ∧ min (f + size) L ≤ L ∧
    content.length ≤ size ∧
    (f + size ≤ L → content = (chunk.drop f).take size) := by
  intro f size L content
  have hCne : cm.ChunkSize ≠ 0 := by omega
  have htmod : Int.tmod request.offset cm.ChunkSize = (f : Int) := by
    rw [Int.tmod_eq_emod hoff0 (le_of_lt hC0)]
    exact (Int.toNat_of_nonneg (Int.emod_nonneg _ hCne)).symm
  have hflt : (f : Int) < cm.ChunkSize := by
    rw [← htmod, Int.tmod_eq_emod hoff0 (le_of_lt hC0)]
    exact Int.emod_lt_of_pos _ hC0
  have hsz : request.size = (size : Int) := (Int.toNat_of_nonneg hsize0).symm
  obtain ⟨e, he⟩ := Option.ne_none_iff_exists'.mp hmiss
  have hslice := responseSlice_eq f size chunk (by omega) (by omega) hL
  refine ⟨?_, by omega, by omega, ?_, ?_⟩
  · unfold chunkIDOf at hpending
    have hcontent : content = (chunk.drop (min f chunk.length)).take
        (min (f + size) chunk.length - min f chunk.length) := rfl
    clear_value content f size
    rw [htmod] at hpending
    rw [getChunk]
    simp only [hCne, if_false, he, hfetch, hresp, htmod]
    rw [hsz, hslice]
    simp only [World.send, hrecv, if_true, ← hcontent, hpending, if_false]
    exact ⟨_, rfl, by simp⟩
  · simp only [content, List.length_take, List.length_drop]
    omega
  · intro hle
    have h1 : min f L = f := by omega
    have h2 : min (f + size) L = f + size := by omega
    simp only [content, h1, h2, Nat.add_sub_cancel_left]

/-- C7, at a read of 3 bytes at offset 7 with chunk size 10 and a fetched chunk
of 9 bytes: the caller is sent bytes 7 and 8 of the chunk. -/
theorem getChunk_response_slice_witness :
    ∃ w1, getChunk emptyManager servesNine 2 sampleRequest true ⟨(), [], [0], ⟨0, []⟩⟩
        = .done w1 ∧
      w1.net.trace = [getEvent 10 sampleRequest] ++
        [.storeChunk sampleRequest.object 7 (some [1, 2, 3, 4, 5, 6, 7, 8, 9]),
         .send 0 ⟨some [8, 9], none⟩] :=
  (getChunk_response_slice emptyManager servesNine 1 sampleRequest true
    ⟨(), [], [0], ⟨0, []⟩⟩ [1, 2, 3, 4, 5, 6, 7, 8, 9] ⟨1, [getEvent 10 sampleRequest]⟩ 0
    (by decide) (by decide) (by decide) (by decide) (by decide) (by decide)
    (by decide) (by simp) (by decide) rfl (by simp)).1

/-- C4: a high-priority read (response channel 0, one receive pending, as in
`DownloadHighPrio`) whose chunk misses the cache, is not pending, and whose
fetch fails with status 500. `getChunk` sends the error, then calls
`StoreChunk` with the nil bytes, and then blocks on a second send that nobody
receives. With a second receive pending the second response is delivered too.
Without a response channel `StoreChunk` is still called, and nothing is sent. -/
theorem getChunk_failure_falls_through :
    outcomeOf (getChunk emptyManager serverError 2 sampleRequest true ⟨(), [], [0], ⟨0, []⟩⟩) =
      ("blocked", [getEvent 10 sampleRequest,
        .send 0 ⟨none, some "Wrong status code 500"⟩,
        .storeChunk sampleRequest.object 7 none]) ∧
    outcomeOf (getChunk emptyManager serverError 2 sampleRequest true ⟨(), [], [0, 0], ⟨0, []⟩⟩) =
      ("returned", [getEvent 10 sampleRequest,
        .send 0 ⟨none, some "Wrong status code 500"⟩,
        .storeChunk sampleRequest.object 7 none,
        .send 0 ⟨none, none⟩]) ∧
    outcomeOf (getChunk emptyManager serverError 2 { sampleRequest with response := none } false
        ⟨(), [], [], ⟨0, []⟩⟩) =
      ("returned", [getEvent 10 sampleRequest, .storeChunk sampleRequest.object 7 none]) ∧
    queueOf (getChunk emptyManager serverError 2 { sampleRequest with response := none } false
        ⟨(), [], [], ⟨0, []⟩⟩) = [] := by
  decide

/-! ## The two worker loops -/

/-- C9: with one request for chunk "o:0" in each lane and the two workers
taking turns, both pass the `Has` test before either reaches `SetIfAbsent`, and
two network fetches for "o:0" are in flight at once. -/
theorem two_fetches_in_flight :
    Workers.inFlight "o:0" "o:0"
      (Workers.run "o:0" "o:0" Workers.init
        [.high, .low, .high, .low, .high, .low, .high, .low]) "o:0" = 2 ∧
    (Workers.run "o:0" "o:0" Workers.init
        [.high, .low, .high, .low, .high, .low, .high, .low]).fetchesStarted = 2 := by
  decide

/-! ## Properties of DownloadHighPrio -/

/-- C10, as stated, fails for an offset inside a chunk: with chunk size 10,
`ReadAhead` 1 and a 100-byte object, a read at offset 7 enqueues a request for
offset 17, not for the chunk-aligned offset 10. -/
theorem readAhead_not_aligned :
    offsetsOf (DownloadHighPrio 10 1 ⟨"o", "n", 100, "u"⟩ 7 3 0).2 = [17] ∧
    offsetsOf (DownloadHighPrio 10 1 ⟨"o", "n", 100, "u"⟩ 7 3 0).2
      ≠ [(7 - Int.tmod 7 10) + 10] := by
  decide

theorem readAheadLoop_spec (chunkSize : Int) (object : APIObject) (size : Int)
    (hC0 : 0 < chunkSize) (hC : chunkSize < 2 ^ 63) (hS : object.Size ≤ 2 ^ 63) :
    ∀ (n : Nat) (y : Int), 0 ≤ y → y < 2 ^ 64 →
      ∃ m, m ≤ n ∧
        readAheadLoop chunkSize object size n (wrapInt64 y) =
          (List.range m).map (fun i => ⟨object, y + i * chunkSize, size, none⟩) ∧
        (∀ i, i < m → y + i * chunkSize < object.Size) ∧
        (m < n → (object.Size : Int) ≤ y + m * chunkSize) := by
  intro n
  induction n with
  | zero =>
    intro y _ _
    exact ⟨0, le_refl _, rfl, by intro i hi; omega, by intro h; omega⟩
  | succ n ih =>
    intro y hy0 hy1
    by_cases hlt : y < object.Size
    · have hw : wrapInt64 y = y := wrapInt64_of_int64 y (by omega) (by omega)
      have hu : toUint64 y < object.Size := by unfold toUint64; omega
      obtain ⟨m, hm, hlist, hbelow, hstop⟩ := ih (y + chunkSize) (by omega) (by omega)
      refine ⟨m + 1, by omega, ?_, ?_, ?_⟩
      · rw [hw, readAheadLoop, if_pos hu, hlist, List.range_succ_eq_map, List.map_cons,
          List.map_map]
        congr 1
        · simp
        · apply List.map_congr_left
          intro i _
          simp only [Function.comp, Nat.succ_eq_add_one, Nat.cast_add, Nat.cast_one]
          congr 1
          ring
      · intro i hi
        cases i with
        | zero => simpa using hlt
        | succ j =>
          have := hbelow j (by omega)
          have e : y + ((j + 1 : Nat) : Int) * chunkSize = y + chunkSize + j * chunkSize := by
            push_cast; ring
          rw [e]; exact this
      · intro hmn
        have := hstop (by omega)
        have e : y + ((m + 1 : Nat) : Int) * chunkSize = y + chunkSize + m * chunkSize := by
          push_cast; ring
        rw [e]; exact this
    · have hu : ¬ toUint64 (wrapInt64 y) < object.Size := by
        unfold toUint64 wrapInt64; omega
      refine ⟨0, by omega, ?_, by intro i hi; omega, ?_⟩
      · rw [readAheadLoop, if_neg hu]; rfl
      · intro _; simpa using not_lt.mp hlt

/-- C10, amended: for chunk size `0 < C < 2^63`, request offset
`0 ≤ offset < 2^63` and object size `S ≤ 2^63`, `DownloadHighPrio` enqueues the
high-priority request as given and, in order, exactly the low-priority requests
for the offsets `offset + C, offset + 2C, ..., offset + mC`, each with the
size of the read and no response channel, where `m ≤ ReadAhead` is the largest
number with `offset + mC < S`. -/
theorem DownloadHighPrio_readAhead (chunkSize ReadAhead : Int) (object : APIObject)
    (offset size : Int) (ch : Nat)
    (hC0 : 0 < chunkSize) (hC : chunkSize < 2 ^ 63)
    (hoff0 : 0 ≤ offset) (hoff : offset < 2 ^ 63) (hS : object.Size ≤ 2 ^ 63) :
    (DownloadHighPrio chunkSize ReadAhead object offset size ch).1
      = ⟨object, offset, size, some ch⟩ ∧
    ∃ m, m ≤ ReadAhead.toNat ∧
      (DownloadHighPrio chunkSize ReadAhead object offset size ch).2 =
        (List.range m).map (fun i => ⟨object, offset + (i + 1) * chunkSize, size, none⟩) ∧
      (∀ i, i < m → offset + (i + 1) * chunkSize < object.Size) ∧
      (m < ReadAhead.toNat → (object.Size : Int) ≤ offset + (m + 1) * chunkSize) := by
  refine ⟨rfl, ?_⟩
  obtain ⟨m, hm, hlist, hbelow, hstop⟩ :=
    readAheadLoop_spec chunkSize object size hC0 hC hS ReadAhead.toNat (offset + chunkSize)
      (by omega) (by omega)
  refine ⟨m, hm, ?_, ?_, ?_⟩
  · simp only [DownloadHighPrio, hlist]
    apply List.map_congr_left
    intro i _
    congr 1
    ring
  · intro i hi
    have := hbelow i hi
    have e : offset + ((i : Int) + 1) * chunkSize = offset + chunkSize + i * chunkSize := by ring
    rw [e]; exact this
  · intro hmn
    have := hstop hmn
    have e : offset + ((m : Int) + 1) * chunkSize = offset + chunkSize + m * chunkSize := by ring
    rw [e]; exact this

/-- C10, amended, at a 10 MiB object with 1 MiB chunks, `ReadAhead` 2 and a read
of 100 bytes at offset 0. -/
theorem DownloadHighPrio_readAhead_witness :
    offsetsOf (DownloadHighPrio 1048576 2 ⟨"o", "n", 10485760, "u"⟩ 0 100 0).2
      = [1048576, 2097152] ∧
    ∃ m, m ≤ (2 : Int).toNat ∧
      (DownloadHighPrio 1048576 2 ⟨"o", "n", 10485760, "u"⟩ 0 100 0).2 =
        (List.range m).map
          (fun i => ⟨⟨"o", "n", 10485760, "u"⟩, 0 + ((i : Int) + 1) * 1048576, 100, none⟩) ∧
      (∀ i, i < m → (0 : Int) + ((i : Int) + 1) * 1048576 < (10485760 : Nat)) ∧
      (m < (2 : Int).toNat → ((10485760 : Nat) : Int) ≤ 0 + ((m : Int) + 1) * 1048576) :=
  ⟨by decide, (DownloadHighPrio_readAhead 1048576 2 ⟨"o", "n", 10485760, "u"⟩ 0 100 0
    (by norm_num) (by norm_num) (by norm_num) (by norm_num) (by norm_num)).2⟩

end Plexdrive
